import Mathlib

/-
Verification of the dataset batching and length-bucketing subsystem of a
Tacotron2-style TTS training repository.

The repository ships the training loop (train.py) and the loader test suite;
the dataset module itself (corpus index, length-bucketing sampler, batch
collator) is consumed through a dynamic import and its code is not part of
the checked tree, so those operations are modelled here from the design
specification, as flagged in each doc comment.  The stop-target regrouping
performed by the training loop is embedded directly from train.py.

Conventions of the embedding: tensors are nested lists, floats are rationals,
a fallible operation returns an Except value, and the random shuffle used by
the sampler is an explicit function parameter assumed to permute its input.
-/

namespace TTS

/-- A transformed corpus item: a token-id sequence produced by the external
text cleaner and a frame matrix (time by mel-bin) produced by the external
feature extractor (spec section 3). -/
structure CorpusItem where
  token_ids : List Int
  frame_matrix : List (List Rat)
deriving DecidableEq

/-- Number of acoustic frames of an item (rows of its frame matrix). -/
def frameLen (it : CorpusItem) : Nat := it.frame_matrix.length

/-- Number of token ids of an item. -/
def tokLen (it : CorpusItem) : Nat := it.token_ids.length

/-- Error raised by the collator on an empty input list (spec section 4.4, 7). -/
inductive CollationError where
  | emptyBatch
deriving DecidableEq

/-- A collated batch (spec section 3): padded token rows, padded frame
tensors, per-item true lengths, per-step stop targets and the permutation of
the caller's input order. -/
structure Batch where
  token_ids : List (List Int)
  token_lengths : List Nat
  frames : List (List (List Rat))
  frame_lengths : List Nat
  stop_targets : List (List (List Rat))
  item_indices : List Nat
deriving DecidableEq

/-- Ceiling division on naturals. -/
def ceilDiv (a b : Nat) : Nat := (a + b - 1) / b

/-- Smallest multiple of r that is at least n (spec section 4.4: frame counts
are rounded up to the next multiple of the reduction factor r). -/
def roundUpTo (r n : Nat) : Nat := r * ceilDiv n r

/-- Right-pad a list with a pad value up to length n (shorter lists are
extended, longer lists are returned unchanged). -/
def padTo {α : Type} (n : Nat) (pad : α) (xs : List α) : List α :=
  xs ++ List.replicate (n - xs.length) pad

/-- Maximum token length over a list of items (0 for the empty list). -/
def maxTokLen (items : List CorpusItem) : Nat :=
  (items.map tokLen).foldr max 0

/-- Maximum frame count over a list of items (0 for the empty list). -/
def maxFrameLen (items : List CorpusItem) : Nat :=
  (items.map frameLen).foldr max 0

/-- Collator sort order: descending frame-matrix length (spec section 4.4);
pairs carry the item's position in the caller's input list. -/
def descByFrames (a b : Nat × CorpusItem) : Prop := frameLen b.2 ≤ frameLen a.2

instance : DecidableRel descByFrames := fun a b =>
  inferInstanceAs (Decidable (frameLen b.2 ≤ frameLen a.2))

instance : IsTotal (Nat × CorpusItem) descByFrames :=
  ⟨fun a b => le_total (frameLen b.2) (frameLen a.2)⟩

instance : IsTrans (Nat × CorpusItem) descByFrames :=
  ⟨fun _ _ _ hab hbc => le_trans hbc hab⟩

/-- Modelled from the spec: the collator's stable descending sort of the
incoming items by frame-matrix length, with each item paired with its index
in the caller's input list so that the applied permutation can be recorded
(spec section 4.4; the collator itself is not in the checked tree). -/
def sortDesc (items : List CorpusItem) : List (Nat × CorpusItem) :=
  List.insertionSort descByFrames items.enum

/-- Modelled from the spec: one stop-target row, a numSteps by 1 tensor that
is all zero except a single 1 at step index ceil(L / r) - 1, the decoder step
covering the item's true final frame (spec section 4.4). -/
def stopRow (r numSteps L : Nat) : List (List Rat) :=
  (List.range numSteps).map fun s => [if s = ceilDiv L r - 1 then (1 : Rat) else 0]

/-- Modelled from the spec: the batch built by the collator for a non-empty
input (spec section 4.4).  Items are sorted by descending frame length; token
rows are right-padded with the sentinel 0 to the batch maximum; frame
matrices are zero-padded along time to the batch maximum rounded up to the
next multiple of r; per-item true lengths and the input-order permutation are
recorded; stop targets hold one 1 per row as in stopRow.  numMels is the
width of a zero frame row. -/
def collateBatch (r numMels : Nat) (items : List CorpusItem) : Batch :=
  let sorted := sortDesc items
  let maxTokens := maxTokLen items
  let maxFrames := roundUpTo r (maxFrameLen items)
  { token_ids := sorted.map fun p => padTo maxTokens 0 p.2.token_ids
    token_lengths := sorted.map fun p => tokLen p.2
    frames := sorted.map fun p =>
      padTo maxFrames (List.replicate numMels (0 : Rat)) p.2.frame_matrix
    frame_lengths := sorted.map fun p => frameLen p.2
    stop_targets := sorted.map fun p =>
      stopRow r (roundUpTo r (maxFrameLen items) / r) (frameLen p.2)
    item_indices := sorted.map fun p => p.1 }

/-- Modelled from the spec: the collator entry point; it fails with
CollationError on an empty input list and otherwise returns the collated
batch (spec sections 4.4 and 7; the collator is not in the checked tree). -/
def collate (r numMels : Nat) (items : List CorpusItem) :
    Except CollationError Batch :=
  if items.isEmpty then Except.error CollationError.emptyBatch
  else Except.ok (collateBatch r numMels items)

/-- Sampler sort order: ascending token-sequence length (spec section 4.3). -/
def ascByTokens (a b : CorpusItem) : Prop := tokLen a ≤ tokLen b

instance : DecidableRel ascByTokens := fun a b =>
  inferInstanceAs (Decidable (tokLen a ≤ tokLen b))

instance : IsTotal CorpusItem ascByTokens :=
  ⟨fun a b => le_total (tokLen a) (tokLen b)⟩

instance : IsTrans CorpusItem ascByTokens :=
  ⟨fun _ _ _ hab hbc => le_trans hab hbc⟩

/-- Modelled from the spec: step 1 of the bucketing sampler, a stable sort of
the live items by token-id length ascending, ties keeping their current
relative order (spec section 4.3; the sampler is not in the checked tree). -/
def sortedByLen (items : List CorpusItem) : List CorpusItem :=
  List.insertionSort ascByTokens items

/-- Partition a list into contiguous chunks of n elements; the final chunk
may be shorter.  Chunk size 0 yields no chunks. -/
def chunkList {α : Type} : Nat → List α → List (List α)
  | _, [] => []
  | 0, _ :: _ => []
  | n + 1, x :: xs =>
    (x :: xs).take (n + 1) :: chunkList (n + 1) ((x :: xs).drop (n + 1))
termination_by _ l => l.length
decreasing_by simp only [List.length_drop, List.length_cons]; omega

/-- Modelled from the spec: steps 1 to 3 of the bucketing sampler for a
positive batch_group_size; the length-sorted items are partitioned into
contiguous groups of batch_group_size and each group is shuffled on its own
(spec section 4.3).  The epoch's seeded shuffle is an explicit function
parameter. -/
def epochGroups (bgs : Nat) (shuffle : List CorpusItem → List CorpusItem)
    (items : List CorpusItem) : List (List CorpusItem) :=
  (chunkList bgs (sortedByLen items)).map shuffle

/-- Modelled from the spec: the re-bucketing operation sort_items invoked by
the training loop between epochs; with batch_group_size 0 bucketing is
disabled and the whole corpus is flat-shuffled, otherwise the shuffled groups
are concatenated in length-sorted order (spec section 4.3). -/
def sort_items (bgs : Nat) (shuffle : List CorpusItem → List CorpusItem)
    (items : List CorpusItem) : List CorpusItem :=
  if bgs = 0 then shuffle items else (epochGroups bgs shuffle items).flatten

/-- Modelled from the spec: per-frame stop flags for an item of true length L
padded to T frames, set at and only at the final true frame, index L - 1
(spec section 9, describing the flags the collator hands to the training
loop). -/
def stopFlags (L T : Nat) : List Rat :=
  (List.range T).map fun j => if j = L - 1 then (1 : Rat) else 0

/-- From train.py lines 50 to 53: one row of the training loop's stop-target
regrouping.  The per-frame flags are viewed as groups of r consecutive flags
(one decoder step each), each group is summed, thresholded with greater than
zero, and re-expanded to a trailing singleton dimension as floats. -/
def trainStopTargets (r : Nat) (flags : List Rat) : List (List Rat) :=
  (chunkList r flags).map fun g => [if 0 < g.sum then (1 : Rat) else 0]

/-- The batch invariant asserted by the loader test suite (loader_tests.py
line 181): every time position lying inside a stop-marked decoder step holds
an all-zero frame row. -/
def stopMarksZeroFrames (r : Nat) (b : Batch) : Prop :=
  ∀ i < b.stop_targets.length, ∀ s < (b.stop_targets.getD i []).length,
    (b.stop_targets.getD i []).getD s [] = [(1 : Rat)] →
    ∀ t < r * s + r, r * s ≤ t →
    ∀ x ∈ (b.frames.getD i []).getD t [], x = (0 : Rat)

instance (r : Nat) (b : Batch) : Decidable (stopMarksZeroFrames r b) :=
  Nat.decidableBallLT _ _

/-- Concrete test fixture: an item with one token and n one-column frames,
every frame row equal to [1]. -/
def itemF (n : Nat) : CorpusItem :=
  { token_ids := [1], frame_matrix := List.replicate n [(1 : Rat)] }

/-! Arithmetic facts about ceiling division and rounding. -/

theorem ceilDiv_sub_one {r L : Nat} (hr : 0 < r) (hL : 0 < L) :
    ceilDiv L r - 1 = (L - 1) / r := by
  have h1 : L + r - 1 = (L - 1) + r := by omega
  unfold ceilDiv
  rw [h1, Nat.add_div_right _ hr]
  exact Nat.add_sub_cancel _ _

theorem one_le_ceilDiv {r L : Nat} (hr : 0 < r) (hL : 0 < L) :
    1 ≤ ceilDiv L r := by
  unfold ceilDiv
  rw [Nat.one_le_div_iff hr]
  omega

theorem ceilDiv_mono {L M : Nat} (r : Nat) (h : L ≤ M) :
    ceilDiv L r ≤ ceilDiv M r :=
  Nat.div_le_div_right (by omega)

theorem le_roundUpTo {r : Nat} (hr : 0 < r) (n : Nat) : n ≤ roundUpTo r n := by
  rcases Nat.eq_zero_or_pos n with h0 | hn
  · simp [h0]
  · unfold roundUpTo
    rw [show ceilDiv n r = (n - 1) / r + 1 by
          have := ceilDiv_sub_one hr hn
          have := one_le_ceilDiv hr hn
          omega,
        Nat.mul_succ]
    have hdm := Nat.div_add_mod (n - 1) r
    have hmod := Nat.mod_lt (n - 1) hr
    generalize r * ((n - 1) / r) = A at hdm ⊢
    omega

theorem roundUpTo_mod (r n : Nat) : roundUpTo r n % r = 0 :=
  Nat.mul_mod_right r _

theorem roundUpTo_div {r : Nat} (hr : 0 < r) (n : Nat) :
    roundUpTo r n / r = ceilDiv n r :=
  Nat.mul_div_cancel_left _ hr

theorem stop_index_lt {r L M : Nat} (hr : 0 < r) (hL : 0 < L) (hLM : L ≤ M) :
    ceilDiv L r - 1 < ceilDiv M r := by
  have h1 := one_le_ceilDiv hr hL
  have h2 := ceilDiv_mono r hLM
  omega

theorem div_pred_eq_iff {r L : Nat} (hr : 0 < r) (hL : 0 < L) (s : Nat) :
    s = (L - 1) / r ↔ (r * s ≤ L - 1 ∧ L - 1 < r * s + r) := by
  constructor
  · rintro rfl
    refine ⟨Nat.mul_div_le (L - 1) r, ?_⟩
    have hdm := Nat.div_add_mod (L - 1) r
    have hmod := Nat.mod_lt (L - 1) hr
    generalize r * ((L - 1) / r) = A at hdm ⊢
    omega
  · rintro ⟨h1, h2⟩
    have hc1 : s * r ≤ L - 1 := by
      rw [Nat.mul_comm]
      exact h1
    have hc2 : L - 1 < (s + 1) * r := by
      rw [Nat.succ_mul, Nat.mul_comm s r]
      exact h2
    have := Nat.div_eq_of_lt_le hc1 hc2
    omega

/-! Facts about padding and list maxima. -/

theorem mem_le_foldr_max : ∀ (l : List Nat), ∀ a ∈ l, a ≤ l.foldr max 0 := by
  intro l
  induction l with
  | nil => intro a ha; cases ha
  | cons x xs ih =>
      intro a ha
      rcases List.mem_cons.mp ha with rfl | hxs
      · exact le_max_left _ _
      · exact le_trans (ih a hxs) (le_max_right _ _)

theorem frameLen_le_maxFrameLen {items : List CorpusItem} {it : CorpusItem}
    (h : it ∈ items) : frameLen it ≤ maxFrameLen items :=
  mem_le_foldr_max _ _ (List.mem_map_of_mem frameLen h)

theorem padTo_length {α : Type} {n : Nat} {pad : α} {xs : List α}
    (h : xs.length ≤ n) : (padTo n pad xs).length = n := by
  simp [padTo]
  omega

theorem padTo_getElem?_left {α : Type} {n t : Nat} {pad : α} {xs : List α}
    (h : t < xs.length) : (padTo n pad xs)[t]? = xs[t]? := by
  simp [padTo, List.getElem?_append, h]

theorem padTo_getElem?_right {α : Type} {n t : Nat} {pad : α} {xs : List α}
    (h1 : xs.length ≤ t) (h2 : t < n) : (padTo n pad xs)[t]? = some pad := by
  have h3 : ¬ t < xs.length := by omega
  simp [padTo, List.getElem?_append, h3, List.getElem?_replicate]
  omega

theorem padTo_take {α : Type} (n : Nat) (pad : α) (xs : List α) :
    (padTo n pad xs).take xs.length = xs :=
  List.take_left xs _

/-! Facts about the collator's descending sort and row decomposition. -/

theorem sortDesc_perm (items : List CorpusItem) :
    (sortDesc items).Perm items.enum :=
  List.perm_insertionSort descByFrames items.enum

theorem sortDesc_length (items : List CorpusItem) :
    (sortDesc items).length = items.length := by
  rw [(sortDesc_perm items).length_eq, List.enum_length]

theorem sortDesc_mem {items : List CorpusItem} {p : Nat × CorpusItem}
    (h : p ∈ sortDesc items) : items[p.1]? = some p.2 :=
  List.mem_enum_iff_getElem?.mp ((sortDesc_perm items).mem_iff.mp h)

theorem sortDesc_sorted (items : List CorpusItem) :
    List.Sorted descByFrames (sortDesc items) :=
  List.sorted_insertionSort descByFrames items.enum

theorem stopRow_length (r numSteps L : Nat) :
    (stopRow r numSteps L).length = numSteps := by
  simp [stopRow]

theorem stopRow_getD {r numSteps L s : Nat} (hs : s < numSteps) :
    (stopRow r numSteps L).getD s [] =
      [if s = ceilDiv L r - 1 then (1 : Rat) else 0] := by
  rw [List.getD_eq_getElem?_getD, stopRow, List.getElem?_map,
    List.getElem?_range hs]
  rfl

theorem collateBatch_lengths (r m : Nat) (items : List CorpusItem) :
    (collateBatch r m items).token_ids.length = items.length ∧
    (collateBatch r m items).token_lengths.length = items.length ∧
    (collateBatch r m items).frames.length = items.length ∧
    (collateBatch r m items).frame_lengths.length = items.length ∧
    (collateBatch r m items).stop_targets.length = items.length ∧
    (collateBatch r m items).item_indices.length = items.length := by
  simp [collateBatch, sortDesc_length]

theorem collateBatch_row (r m : Nat) (items : List CorpusItem) {i : Nat}
    (hi : i < items.length) :
    ∃ p : Nat × CorpusItem, (sortDesc items)[i]? = some p ∧ p.2 ∈ items ∧
      items[p.1]? = some p.2 ∧
      (collateBatch r m items).token_ids.getD i [] =
        padTo (maxTokLen items) 0 p.2.token_ids ∧
      (collateBatch r m items).token_lengths.getD i 0 = tokLen p.2 ∧
      (collateBatch r m items).frames.getD i [] =
        padTo (roundUpTo r (maxFrameLen items))
          (List.replicate m (0 : Rat)) p.2.frame_matrix ∧
      (collateBatch r m items).frame_lengths.getD i 0 = frameLen p.2 ∧
      (collateBatch r m items).stop_targets.getD i [] =
        stopRow r (roundUpTo r (maxFrameLen items) / r) (frameLen p.2) ∧
      (collateBatch r m items).item_indices.getD i 0 = p.1 := by
  have hi' : i < (sortDesc items).length := by rw [sortDesc_length]; exact hi
  obtain ⟨p, hp⟩ : ∃ p, (sortDesc items)[i]? = some p :=
    ⟨(sortDesc items)[i], List.getElem?_eq_some.mpr ⟨hi', rfl⟩⟩
  have hmem : p ∈ sortDesc items := List.getElem?_mem hp
  have hsnd := sortDesc_mem hmem
  refine ⟨p, hp, List.getElem?_mem hsnd, hsnd, ?_, ?_, ?_, ?_, ?_, ?_⟩ <;>
    simp [collateBatch, List.getD_eq_getElem?_getD, List.getElem?_map, hp]

theorem collate_ok_iff {r m : Nat} {items : List CorpusItem} {b : Batch} :
    collate r m items = Except.ok b ↔
      items ≠ [] ∧ b = collateBatch r m items := by
  unfold collate
  cases h : items.isEmpty with
  | true => simp [List.isEmpty_iff.mp h]
  | false =>
      have : items ≠ [] := by
        intro h0
        rw [h0] at h
        simp at h
      simp [this, eq_comm]

/-! Facts about chunking and the bucketing sampler. -/

theorem chunkList_flatten {α : Type} :
    ∀ (n : Nat), 0 < n → ∀ l : List α, (chunkList n l).flatten = l
  | _, _, [] => by simp [chunkList]
  | 0, h, _ :: _ => absurd h (by omega)
  | n + 1, h, x :: xs => by
      simp only [chunkList, List.flatten_cons]
      rw [chunkList_flatten (n + 1) h ((x :: xs).drop (n + 1)),
        List.take_append_drop]
termination_by n _ l => l.length
decreasing_by simp only [List.length_drop, List.length_cons]; omega

theorem chunkList_map {α β : Type} (f : α → β) :
    ∀ (n : Nat) (l : List α),
      chunkList n (l.map f) = (chunkList n l).map (List.map f)
  | _, [] => by simp [chunkList]
  | 0, x :: xs => by simp [chunkList]
  | n + 1, x :: xs => by
      simp only [List.map_cons, chunkList]
      rw [← List.map_cons f x xs, ← List.map_take, ← List.map_drop,
        chunkList_map f (n + 1) (List.drop (n + 1) (x :: xs))]
termination_by n l => l.length
decreasing_by simp only [List.length_drop, List.length_cons]; omega

theorem flatten_map_perm {s : List CorpusItem → List CorpusItem}
    (hs : ∀ l, (s l).Perm l) :
    ∀ gs : List (List CorpusItem), ((gs.map s).flatten).Perm gs.flatten := by
  intro gs
  induction gs with
  | nil => simp
  | cons g gs ih =>
      simp only [List.map_cons, List.flatten_cons]
      exact (hs g).append ih

theorem sortedByLen_perm (items : List CorpusItem) :
    (sortedByLen items).Perm items :=
  List.perm_insertionSort ascByTokens items

theorem sort_items_perm (bgs : Nat) {s : List CorpusItem → List CorpusItem}
    (hs : ∀ l, (s l).Perm l) (items : List CorpusItem) :
    (sort_items bgs s items).Perm items := by
  unfold sort_items
  by_cases h : bgs = 0
  · simpa [h] using hs items
  · simp only [h, if_false]
    unfold epochGroups
    have h1 := flatten_map_perm hs (chunkList bgs (sortedByLen items))
    rw [chunkList_flatten bgs (Nat.pos_of_ne_zero h)] at h1
    exact h1.trans (sortedByLen_perm items)

theorem epochGroups_getD (bgs : Nat) (s : List CorpusItem → List CorpusItem)
    (items : List CorpusItem) (g : Nat) :
    (epochGroups bgs s items).getD g [] =
        s ((chunkList bgs (sortedByLen items)).getD g []) ∨
      ((epochGroups bgs s items).getD g [] = [] ∧
        (chunkList bgs (sortedByLen items)).getD g [] = []) := by
  unfold epochGroups
  by_cases hg : g < (chunkList bgs (sortedByLen items)).length
  · left
    obtain ⟨grp, hgrp⟩ : ∃ grp, (chunkList bgs (sortedByLen items))[g]? = some grp :=
      ⟨_, List.getElem?_eq_some.mpr ⟨hg, rfl⟩⟩
    rw [List.getD_eq_getElem?_getD, List.getElem?_map, hgrp,
      List.getD_eq_getElem?_getD, hgrp]
    rfl
  · right
    have hnone : (chunkList bgs (sortedByLen items))[g]? = none :=
      List.getElem?_eq_none (by omega)
    rw [List.getD_eq_getElem?_getD, List.getElem?_map, hnone,
      List.getD_eq_getElem?_getD, hnone]
    exact ⟨rfl, rfl⟩

theorem sortedByLen_sorted_map (l : List CorpusItem) :
    ((sortedByLen l).map tokLen).Sorted (· ≤ ·) :=
  List.Pairwise.map tokLen (fun _ _ h => h)
    (List.sorted_insertionSort ascByTokens l)

theorem sortedByLen_map_eq {l₁ l₂ : List CorpusItem} (h : l₁.Perm l₂) :
    (sortedByLen l₁).map tokLen = (sortedByLen l₂).map tokLen :=
  List.eq_of_perm_of_sorted
    (List.Perm.map tokLen
      ((sortedByLen_perm l₁).trans (h.trans (sortedByLen_perm l₂).symm)))
    (sortedByLen_sorted_map l₁) (sortedByLen_sorted_map l₂)

theorem chunk_map_tokLen_eq {l₁ l₂ : List CorpusItem} (h : l₁.Perm l₂)
    (bgs : Nat) :
    (chunkList bgs (sortedByLen l₁)).map (List.map tokLen) =
      (chunkList bgs (sortedByLen l₂)).map (List.map tokLen) := by
  rw [← chunkList_map, ← chunkList_map, sortedByLen_map_eq h]

theorem group_map_tokLen_eq {l₁ l₂ : List CorpusItem} (h : l₁.Perm l₂)
    (bgs g : Nat) :
    ((chunkList bgs (sortedByLen l₁)).getD g []).map tokLen =
      ((chunkList bgs (sortedByLen l₂)).getD g []).map tokLen := by
  have h1 := chunk_map_tokLen_eq h bgs
  have h2 : ((chunkList bgs (sortedByLen l₁)).map (List.map tokLen)).getD g [] =
      ((chunkList bgs (sortedByLen l₂)).map (List.map tokLen)).getD g [] := by
    rw [h1]
  rw [List.getD_eq_getElem?_getD, List.getD_eq_getElem?_getD,
    List.getElem?_map, List.getElem?_map] at h2
  rw [List.getD_eq_getElem?_getD, List.getD_eq_getElem?_getD]
  cases hg1 : (chunkList bgs (sortedByLen l₁))[g]? with
  | none =>
      cases hg2 : (chunkList bgs (sortedByLen l₂))[g]? with
      | none => rfl
      | some grp => rw [hg1, hg2] at h2; simp at h2; simp [h2]
  | some grp =>
      cases hg2 : (chunkList bgs (sortedByLen l₂))[g]? with
      | none => rw [hg1, hg2] at h2; simp at h2; simp [h2]
      | some grp2 =>
          rw [hg1, hg2] at h2
          simpa using h2

/-! Facts about the training loop's stop-target regrouping. -/

theorem chunkList_append {α : Type} {n : Nat} {l₁ l₂ : List α}
    (h : l₁.length = n) (hn : 0 < n) :
    chunkList n (l₁ ++ l₂) = l₁ :: chunkList n l₂ := by
  obtain ⟨m, rfl⟩ : ∃ m, n = m + 1 := ⟨n - 1, by omega⟩
  cases l₁ with
  | nil => simp at h
  | cons x xs =>
      simp only [List.cons_append, chunkList]
      rw [← List.cons_append, List.take_left' h, List.drop_left' h]

theorem sum_indicator_range' (x : Nat) :
    ∀ (len a : Nat),
      (((List.range' a len).map fun j => if j = x then (1 : Rat) else 0).sum) =
        if a ≤ x ∧ x < a + len then (1 : Rat) else 0 := by
  intro len
  induction len with
  | zero =>
      intro a
      rw [List.range'_zero, List.map_nil, List.sum_nil, if_neg (by omega)]
  | succ len ih =>
      intro a
      rw [List.range'_succ, List.map_cons, List.sum_cons, ih (a + 1)]
      by_cases h1 : a = x
      · rw [if_pos h1, if_neg (by omega), if_pos (by omega)]
        norm_num
      · rw [if_neg h1, zero_add,
          if_congr (show (a + 1 ≤ x ∧ x < a + 1 + len) ↔
            (a ≤ x ∧ x < a + (len + 1)) by omega) rfl rfl]

theorem chunk_flags {r : Nat} (hr : 0 < r) (L : Nat) :
    ∀ (k a : Nat),
      ((chunkList r ((List.range' a (r * k)).map
          fun j => if j = L - 1 then (1 : Rat) else 0)).map
        fun g => [if 0 < g.sum then (1 : Rat) else 0]) =
      ((List.range' 0 k).map
        fun s => [if a + r * s ≤ L - 1 ∧ L - 1 < a + r * s + r
                  then (1 : Rat) else 0]) := by
  intro k
  induction k with
  | zero => intro a; simp [chunkList]
  | succ k ih =>
      intro a
      have hsplit : List.range' a (r * (k + 1)) =
          List.range' a r ++ List.range' (a + r) (r * k) := by
        have h := List.range'_append a r (r * k) 1
        simp only [one_mul] at h
        rw [Nat.mul_succ]
        exact h.symm
      rw [hsplit, List.map_append,
        chunkList_append (by simp [List.length_range']) hr,
        List.map_cons, ih (a + r)]
      rw [List.range'_succ, List.map_cons]
      congr 1
      · rw [sum_indicator_range' (L - 1) r a, Nat.mul_zero, Nat.add_zero]
        by_cases h : a ≤ L - 1 ∧ L - 1 < a + r
        · rw [if_pos h, if_pos (by norm_num)]
        · rw [if_neg h, if_neg (by norm_num)]
      · rw [List.range'_eq_map_range 1 k, List.range'_eq_map_range 0 k,
          List.map_map, List.map_map]
        apply List.map_congr_left
        intro s hs
        simp only [Function.comp_apply, Nat.zero_add]
        rw [if_congr (show a + r * (1 + s) ≤ L - 1 ∧ L - 1 < a + r * (1 + s) + r
            ↔ a + r + r * s ≤ L - 1 ∧ L - 1 < a + r + r * s + r by
              rw [Nat.mul_add, Nat.mul_one]; omega) rfl rfl]

theorem ceilDiv_mul_self {r : Nat} (hr : 0 < r) (k : Nat) :
    ceilDiv (r * k) r = k := by
  unfold ceilDiv
  rw [show r * k + r - 1 = (r - 1) + k * r by rw [Nat.mul_comm]; omega,
    Nat.add_mul_div_right _ _ hr, Nat.div_eq_of_lt (by omega), Nat.zero_add]

/-! Claim theorems. -/

/-- C1: for every non-empty item list and reduction factor r at least 1
(every item having at least one frame), the collated stop_targets tensor has
one row per item, each row has max_frames / r singleton cells, and row i is
exactly the indicator of step index ceil(frame_lengths[i] / r) - 1, which
lies inside the row: exactly one 1 there, every cell strictly before and
after it 0. -/
theorem c1_stop_targets {r numMels : Nat} {items : List CorpusItem} {b : Batch}
    (hok : collate r numMels items = Except.ok b) (hr : 1 ≤ r)
    (hL : ∀ it ∈ items, 1 ≤ frameLen it) :
    b.stop_targets.length = items.length ∧
    ∀ i < items.length,
      (b.stop_targets.getD i []).length =
          roundUpTo r (maxFrameLen items) / r ∧
      ceilDiv (b.frame_lengths.getD i 0) r - 1 <
          roundUpTo r (maxFrameLen items) / r ∧
      ∀ s < roundUpTo r (maxFrameLen items) / r,
        (b.stop_targets.getD i []).getD s [] =
          [if s = ceilDiv (b.frame_lengths.getD i 0) r - 1
           then (1 : Rat) else 0] := by
  obtain ⟨hne, rfl⟩ := collate_ok_iff.mp hok
  refine ⟨(collateBatch_lengths r numMels items).2.2.2.2.1, ?_⟩
  intro i hi
  obtain ⟨p, hp, hpmem, hpidx, _, _, _, hflen, hstop, _⟩ :=
    collateBatch_row r numMels items hi
  rw [hflen, hstop]
  have hL1 : 1 ≤ frameLen p.2 := hL p.2 hpmem
  have hLM : frameLen p.2 ≤ maxFrameLen items := frameLen_le_maxFrameLen hpmem
  have hlt : ceilDiv (frameLen p.2) r - 1 <
      roundUpTo r (maxFrameLen items) / r := by
    rw [roundUpTo_div hr]
    exact stop_index_lt hr hL1 hLM
  exact ⟨stopRow_length _ _ _, hlt, fun s hs => stopRow_getD hs⟩

/-- C1 witness: a single item with 37 frames and r = 5; the conclusion is
instantiated there, and concretely stop_targets is the 1 by 8 by 1 tensor
with its single 1 at step index 7. -/
theorem c1_stop_targets_witness :
    collate 5 1 [itemF 37] = Except.ok (collateBatch 5 1 [itemF 37]) ∧
    (1 : Nat) ≤ 5 ∧ (∀ it ∈ [itemF 37], 1 ≤ frameLen it) ∧
    (collateBatch 5 1 [itemF 37]).stop_targets =
      [[[0], [0], [0], [0], [0], [0], [0], [(1 : Rat)]]] ∧
    ((collateBatch 5 1 [itemF 37]).stop_targets.length = [itemF 37].length ∧
      ∀ i < [itemF 37].length,
        ((collateBatch 5 1 [itemF 37]).stop_targets.getD i []).length =
            roundUpTo 5 (maxFrameLen [itemF 37]) / 5 ∧
        ceilDiv ((collateBatch 5 1 [itemF 37]).frame_lengths.getD i 0) 5 - 1 <
            roundUpTo 5 (maxFrameLen [itemF 37]) / 5 ∧
        ∀ s < roundUpTo 5 (maxFrameLen [itemF 37]) / 5,
          ((collateBatch 5 1 [itemF 37]).stop_targets.getD i []).getD s [] =
            [if s = ceilDiv
                ((collateBatch 5 1 [itemF 37]).frame_lengths.getD i 0) 5 - 1
             then (1 : Rat) else 0]) :=
  ⟨rfl, by decide, by decide, by decide,
    c1_stop_targets rfl (by decide) (by decide)⟩

/-- C2: for every non-empty item list and r at least 1, every frames row of
the collated batch has time dimension equal to the batch's maximum frame
count rounded up to the next multiple of r, and that dimension is divisible
by r. -/
theorem c2_frames_time_dim {r numMels : Nat} {items : List CorpusItem}
    {b : Batch} (hok : collate r numMels items = Except.ok b) (hr : 1 ≤ r) :
    b.frames.length = items.length ∧
    roundUpTo r (maxFrameLen items) % r = 0 ∧
    ∀ i < items.length,
      (b.frames.getD i []).length = roundUpTo r (maxFrameLen items) := by
  obtain ⟨hne, rfl⟩ := collate_ok_iff.mp hok
  refine ⟨(collateBatch_lengths r numMels items).2.2.1, roundUpTo_mod r _, ?_⟩
  intro i hi
  obtain ⟨p, hp, hpmem, _, _, _, hframes, _, _, _⟩ :=
    collateBatch_row r numMels items hi
  rw [hframes, padTo_length]
  exact le_trans (frameLen_le_maxFrameLen hpmem) (le_roundUpTo hr _)

/-- C2 witness: a single 37-frame item with r = 5; the padded time dimension
is concretely 40, a multiple of 5. -/
theorem c2_frames_time_dim_witness :
    collate 5 1 [itemF 37] = Except.ok (collateBatch 5 1 [itemF 37]) ∧
    (1 : Nat) ≤ 5 ∧ roundUpTo 5 (maxFrameLen [itemF 37]) = 40 ∧
    ((collateBatch 5 1 [itemF 37]).frames.length = [itemF 37].length ∧
      roundUpTo 5 (maxFrameLen [itemF 37]) % 5 = 0 ∧
      ∀ i < [itemF 37].length,
        ((collateBatch 5 1 [itemF 37]).frames.getD i []).length =
          roundUpTo 5 (maxFrameLen [itemF 37])) :=
  ⟨rfl, by decide, by decide, c2_frames_time_dim rfl (by decide)⟩

/-- C3: every collated row stores some input item's true unpadded frame count
in frame_lengths, its first frame_lengths rows are exactly the item's frame
matrix, every row at a time index at or beyond frame_lengths is the all-zero
frame, and the row at index frame_lengths - 1 is the item's own final real
frame (hence nonzero whenever that frame is nonzero). -/
theorem c3_padding {r numMels : Nat} {items : List CorpusItem} {b : Batch}
    (hok : collate r numMels items = Except.ok b) (hr : 1 ≤ r) :
    b.frame_lengths.length = items.length ∧
    ∀ i < items.length, ∃ it ∈ items,
      b.frame_lengths.getD i 0 = frameLen it ∧
      (b.frames.getD i []).take (frameLen it) = it.frame_matrix ∧
      (∀ t, frameLen it ≤ t → t < roundUpTo r (maxFrameLen items) →
        (b.frames.getD i []).getD t [] = List.replicate numMels (0 : Rat)) ∧
      (1 ≤ frameLen it →
        (b.frames.getD i []).getD (frameLen it - 1) [] =
          it.frame_matrix.getD (frameLen it - 1) []) := by
  obtain ⟨hne, rfl⟩ := collate_ok_iff.mp hok
  refine ⟨(collateBatch_lengths r numMels items).2.2.2.1, ?_⟩
  intro i hi
  obtain ⟨p, hp, hpmem, _, _, _, hframes, hflen, _, _⟩ :=
    collateBatch_row r numMels items hi
  refine ⟨p.2, hpmem, hflen, ?_, ?_, ?_⟩
  · rw [hframes]
    exact padTo_take _ _ _
  · intro t ht1 ht2
    rw [hframes, List.getD_eq_getElem?_getD, padTo_getElem?_right ht1 ht2]
    rfl
  · intro hL1
    have hlt : frameLen p.2 - 1 < p.2.frame_matrix.length := by
      have : frameLen p.2 = p.2.frame_matrix.length := rfl
      omega
    rw [hframes, List.getD_eq_getElem?_getD, padTo_getElem?_left hlt,
      ← List.getD_eq_getElem?_getD]

/-- C3 witness: the conclusion instantiated for a single 37-frame item with
r = 5. -/
theorem c3_padding_witness :
    collate 5 1 [itemF 37] = Except.ok (collateBatch 5 1 [itemF 37]) ∧
    (1 : Nat) ≤ 5 ∧
    ((collateBatch 5 1 [itemF 37]).frame_lengths.length = [itemF 37].length ∧
      ∀ i < [itemF 37].length, ∃ it ∈ [itemF 37],
        (collateBatch 5 1 [itemF 37]).frame_lengths.getD i 0 = frameLen it ∧
        ((collateBatch 5 1 [itemF 37]).frames.getD i []).take (frameLen it) =
          it.frame_matrix ∧
        (∀ t, frameLen it ≤ t → t < roundUpTo 5 (maxFrameLen [itemF 37]) →
          ((collateBatch 5 1 [itemF 37]).frames.getD i []).getD t [] =
            List.replicate 1 (0 : Rat)) ∧
        (1 ≤ frameLen it →
          ((collateBatch 5 1 [itemF 37]).frames.getD i []).getD
              (frameLen it - 1) [] =
            it.frame_matrix.getD (frameLen it - 1) [])) :=
  ⟨rfl, by decide, c3_padding rfl (by decide)⟩

theorem epochGroups_getD_perm (bgs : Nat)
    (s : List CorpusItem → List CorpusItem) (hs : ∀ l, (s l).Perm l)
    (items : List CorpusItem) (g : Nat) :
    (((epochGroups bgs s items).getD g []).map tokLen).Perm
      (((chunkList bgs (sortedByLen items)).getD g []).map tokLen) := by
  rcases epochGroups_getD bgs s items g with h | ⟨h1, h2⟩
  · rw [h]
    exact (hs _).map tokLen
  · rw [h1, h2]

/-- C4: the epoch ordering produced by the bucketing sampler permutes the
corpus, and for positive batch_group_size it is exactly the concatenation of
the per-group shuffles of the chunked stable length-sort, each shuffled group
being a permutation of its chunk; across two sort_items calls the multiset of
item lengths at each group position is unchanged; with batch_group_size 0 the
order is the flat shuffle of the whole corpus. -/
theorem c4_bucketing {bgs : Nat} {s₁ s₂ : List CorpusItem → List CorpusItem}
    (hs₁ : ∀ l, (s₁ l).Perm l) (hs₂ : ∀ l, (s₂ l).Perm l)
    (items : List CorpusItem) :
    (sort_items bgs s₁ items).Perm items ∧
    sort_items 0 s₁ items = s₁ items ∧
    (bgs ≠ 0 →
      sort_items bgs s₁ items = (epochGroups bgs s₁ items).flatten ∧
      (∀ g, ((epochGroups bgs s₁ items).getD g []).Perm
          ((chunkList bgs (sortedByLen items)).getD g [])) ∧
      (∀ g, (((epochGroups bgs s₂ (sort_items bgs s₁ items)).getD g []).map
          tokLen).Perm
        (((epochGroups bgs s₁ items).getD g []).map tokLen))) := by
  refine ⟨sort_items_perm bgs hs₁ items, by simp [sort_items],
    fun hbgs => ⟨by simp [sort_items, hbgs], ?_, ?_⟩⟩
  · intro g
    rcases epochGroups_getD bgs s₁ items g with h | ⟨h1, h2⟩
    · rw [h]
      exact hs₁ _
    · rw [h1, h2]
  · intro g
    have hfirst := sort_items_perm bgs hs₁ items
    have hmid := group_map_tokLen_eq hfirst bgs g
    refine (epochGroups_getD_perm bgs s₂ hs₂ _ g).trans ?_
    rw [hmid]
    exact (epochGroups_getD_perm bgs s₁ hs₁ items g).symm

/-- C4 witness: a three-item corpus with group size 2, first epoch shuffled
by list reversal, second epoch by the identity; both shuffles permute their
input. -/
theorem c4_bucketing_witness :
    (∀ l : List CorpusItem, l.reverse.Perm l) ∧
    (∀ l : List CorpusItem, (id l).Perm l) ∧
    ((sort_items 2 List.reverse [itemF 1, itemF 2, itemF 3]).Perm
        [itemF 1, itemF 2, itemF 3] ∧
      sort_items 0 List.reverse [itemF 1, itemF 2, itemF 3] =
        List.reverse [itemF 1, itemF 2, itemF 3] ∧
      ((2 : Nat) ≠ 0 →
        sort_items 2 List.reverse [itemF 1, itemF 2, itemF 3] =
          (epochGroups 2 List.reverse [itemF 1, itemF 2, itemF 3]).flatten ∧
        (∀ g, ((epochGroups 2 List.reverse
              [itemF 1, itemF 2, itemF 3]).getD g []).Perm
            ((chunkList 2 (sortedByLen [itemF 1, itemF 2, itemF 3])).getD g [])) ∧
        (∀ g, (((epochGroups 2 id
              (sort_items 2 List.reverse [itemF 1, itemF 2, itemF 3])).getD
                g []).map tokLen).Perm
          (((epochGroups 2 List.reverse
              [itemF 1, itemF 2, itemF 3]).getD g []).map tokLen)))) :=
  ⟨fun l => l.reverse_perm, fun l => List.Perm.refl l,
    c4_bucketing (fun l => l.reverse_perm) (fun l => List.Perm.refl l)
      [itemF 1, itemF 2, itemF 3]⟩

/-- C5: sort_items only permutes the item collection, so the item multiset
(and hence set) is unchanged, and a second sort_items call on the result of a
first one still yields a permutation of the original items. -/
theorem c5_sort_items_set {bgs : Nat}
    {s₁ s₂ : List CorpusItem → List CorpusItem}
    (hs₁ : ∀ l, (s₁ l).Perm l) (hs₂ : ∀ l, (s₂ l).Perm l)
    (items : List CorpusItem) :
    (sort_items bgs s₁ items).Perm items ∧
    (sort_items bgs s₂ (sort_items bgs s₁ items)).Perm items :=
  ⟨sort_items_perm bgs hs₁ items,
    (sort_items_perm bgs hs₂ _).trans (sort_items_perm bgs hs₁ items)⟩

/-- C5 witness: two consecutive sort_items calls on a three-item corpus with
group size 16 (the whole corpus in one group), reversal then identity. -/
theorem c5_sort_items_set_witness :
    (∀ l : List CorpusItem, l.reverse.Perm l) ∧
    (∀ l : List CorpusItem, (id l).Perm l) ∧
    ((sort_items 16 List.reverse [itemF 2, itemF 1, itemF 3]).Perm
        [itemF 2, itemF 1, itemF 3] ∧
      (sort_items 16 id
          (sort_items 16 List.reverse [itemF 2, itemF 1, itemF 3])).Perm
        [itemF 2, itemF 1, itemF 3]) :=
  ⟨fun l => l.reverse_perm, fun l => List.Perm.refl l,
    c5_sort_items_set (fun l => l.reverse_perm) (fun l => List.Perm.refl l)
      [itemF 2, itemF 1, itemF 3]⟩

/-- C6: collate fails with CollationError exactly on the empty input list,
and every non-empty input yields a batch; the error is returned to the
caller as the Except value of that one collation call. -/
theorem c6_empty_batch (r numMels : Nat) (items : List CorpusItem) :
    (collate r numMels items = Except.error CollationError.emptyBatch ↔
      items = []) ∧
    (items ≠ [] → ∃ b, collate r numMels items = Except.ok b) := by
  constructor
  · unfold collate
    cases h : items.isEmpty with
    | true => simp [List.isEmpty_iff.mp h]
    | false =>
        have hne : items ≠ [] := by
          intro h0
          rw [h0] at h
          simp at h
        simp [hne]
  · intro h
    exact ⟨collateBatch r numMels items, collate_ok_iff.mpr ⟨h, rfl⟩⟩

/-- C6 witness: the singleton input collates to a batch and the empty input
collates to the CollationError. -/
theorem c6_empty_batch_witness :
    ([itemF 1] ≠ ([] : List CorpusItem) ∧
      ∃ b, collate 1 1 [itemF 1] = Except.ok b) ∧
    collate 1 1 ([] : List CorpusItem) =
      Except.error CollationError.emptyBatch :=
  ⟨⟨by decide, (c6_empty_batch 1 1 [itemF 1]).2 (by decide)⟩,
    (c6_empty_batch 1 1 []).1.mpr rfl⟩

/-- C7: when every input item's token_ids are non-negative (the corpus
invariant; token production is external), every token row of the collated
batch, padded positions with sentinel 0 included, contains no negative
value. -/
theorem c7_nonneg_tokens {r numMels : Nat} {items : List CorpusItem}
    {b : Batch} (hok : collate r numMels items = Except.ok b)
    (hinv : ∀ it ∈ items, ∀ x ∈ it.token_ids, (0 : Int) ≤ x) :
    ∀ row ∈ b.token_ids, ∀ x ∈ row, (0 : Int) ≤ x := by
  obtain ⟨hne, rfl⟩ := collate_ok_iff.mp hok
  intro row hrow x hx
  have hrow' : row ∈ (sortDesc items).map
      fun p => padTo (maxTokLen items) 0 p.2.token_ids := hrow
  obtain ⟨p, hpmem, rfl⟩ := List.mem_map.mp hrow'
  unfold padTo at hx
  rcases List.mem_append.mp hx with hx1 | hx2
  · exact hinv p.2 (List.getElem?_mem (sortDesc_mem hpmem)) x hx1
  · rw [(List.mem_replicate.mp hx2).2]

/-- C7 witness: a two-item batch whose token ids are non-negative. -/
theorem c7_nonneg_tokens_witness :
    collate 1 1 [⟨[3, 0], [[1]]⟩, ⟨[2], [[1], [2]]⟩] =
      Except.ok (collateBatch 1 1 [⟨[3, 0], [[1]]⟩, ⟨[2], [[1], [2]]⟩]) ∧
    (∀ it ∈ [(⟨[3, 0], [[1]]⟩ : CorpusItem), ⟨[2], [[1], [2]]⟩],
      ∀ x ∈ it.token_ids, (0 : Int) ≤ x) ∧
    (∀ row ∈ (collateBatch 1 1
        [(⟨[3, 0], [[1]]⟩ : CorpusItem), ⟨[2], [[1], [2]]⟩]).token_ids,
      ∀ x ∈ row, (0 : Int) ≤ x) :=
  ⟨rfl, by decide,
    c7_nonneg_tokens
      (show collate 1 1 [⟨[3, 0], [[1]]⟩, ⟨[2], [[1], [2]]⟩] =
          Except.ok (collateBatch 1 1 [⟨[3, 0], [[1]]⟩, ⟨[2], [[1], [2]]⟩])
        from rfl)
      (by decide)⟩

/-- C8: the training loop's regrouping of per-frame stop flags (view as
groups of r flags, sum each group, threshold with greater than zero) agrees
with the direct indicator of step ceil(L / r) - 1 for every valid true length
1 <= L <= T with r dividing the padded length T, and that marked step index
lies inside the T / r steps. -/
theorem c8_stop_equivalence {L r T : Nat} (hL : 1 ≤ L) (hr : 1 ≤ r)
    (hLT : L ≤ T) (hdvd : r ∣ T) :
    trainStopTargets r (stopFlags L T) = stopRow r (T / r) L ∧
    ceilDiv L r - 1 < T / r := by
  obtain ⟨k, rfl⟩ := hdvd
  have hr' : 0 < r := hr
  rw [Nat.mul_div_cancel_left k hr']
  constructor
  · unfold trainStopTargets stopFlags stopRow
    rw [List.range_eq_range' (r * k), chunk_flags hr' L k 0,
      ← List.range_eq_range']
    apply List.map_congr_left
    intro s hs
    rw [if_congr (show 0 + r * s ≤ L - 1 ∧ L - 1 < 0 + r * s + r ↔
        s = ceilDiv L r - 1 by
          rw [Nat.zero_add, ceilDiv_sub_one hr' hL]
          exact (div_pred_eq_iff hr' hL s).symm) rfl rfl]
  · rw [← ceilDiv_mul_self hr' k]
    exact stop_index_lt hr' hL hLT

/-- C8 witness: L = 37, r = 5, T = 40; the regrouped flags equal the direct
indicator row over 8 steps and the marked index 7 is in range. -/
theorem c8_stop_equivalence_witness :
    (1 : Nat) ≤ 37 ∧ (1 : Nat) ≤ 5 ∧ (37 : Nat) ≤ 40 ∧ (5 : Nat) ∣ 40 ∧
    (trainStopTargets 5 (stopFlags 37 40) = stopRow 5 (40 / 5) 37 ∧
      ceilDiv 37 5 - 1 < 40 / 5) :=
  ⟨by decide, by decide, by decide, by decide,
    c8_stop_equivalence (by decide) (by decide) (by decide) (by decide)⟩

/-- C9: the collator sorts by descending frame length: item_indices is a
permutation of the input positions, every batch row i holds the frames and
true length of the input item at position item_indices[i], and frame_lengths
is non-increasing, so row 0 holds the largest frame count. -/
theorem c9_desc_order {r numMels : Nat} {items : List CorpusItem} {b : Batch}
    (hok : collate r numMels items = Except.ok b) :
    b.item_indices.Perm (List.range items.length) ∧
    (∀ i < items.length, ∃ k it, b.item_indices.getD i 0 = k ∧
      items[k]? = some it ∧ b.frame_lengths.getD i 0 = frameLen it ∧
      (b.frames.getD i []).take (frameLen it) = it.frame_matrix) ∧
    (∀ i j, i ≤ j → j < items.length →
      b.frame_lengths.getD j 0 ≤ b.frame_lengths.getD i 0) ∧
    (∀ i < items.length,
      b.frame_lengths.getD i 0 ≤ b.frame_lengths.getD 0 0) := by
  obtain ⟨hne, rfl⟩ := collate_ok_iff.mp hok
  have hidxeq : (collateBatch r numMels items).item_indices =
      (sortDesc items).map Prod.fst := rfl
  have hfleq : (collateBatch r numMels items).frame_lengths =
      (sortDesc items).map fun p => frameLen p.2 := rfl
  have hlen : (collateBatch r numMels items).frame_lengths.length =
      items.length := (collateBatch_lengths r numMels items).2.2.2.1
  have hdesc : ∀ i j, i ≤ j → j < items.length →
      (collateBatch r numMels items).frame_lengths.getD j 0 ≤
        (collateBatch r numMels items).frame_lengths.getD i 0 := by
    intro i j hij hj
    rcases Nat.eq_or_lt_of_le hij with rfl | hlt
    · exact le_refl _
    · have hjl : j < (collateBatch r numMels items).frame_lengths.length := by
        rw [hlen]
        exact hj
      have hil : i < (collateBatch r numMels items).frame_lengths.length := by
        omega
      have hpw : List.Pairwise (fun a b : Nat => b ≤ a)
          ((collateBatch r numMels items).frame_lengths) := by
        rw [hfleq]
        exact List.Pairwise.map _ (fun a b h => h) (sortDesc_sorted items)
      rw [List.getD_eq_getElem _ 0 hjl, List.getD_eq_getElem _ 0 hil]
      exact List.pairwise_iff_getElem.mp hpw i j hil hjl hlt
  refine ⟨?_, ?_, hdesc, fun i hi => hdesc 0 i (Nat.zero_le i) hi⟩
  · rw [hidxeq, ← List.enum_map_fst items]
    exact (sortDesc_perm items).map Prod.fst
  · intro i hi
    obtain ⟨p, hp, hpmem, hpidx, _, _, hframes, hflen2, _, hindices⟩ :=
      collateBatch_row r numMels items hi
    refine ⟨p.1, p.2, hindices, hpidx, hflen2, ?_⟩
    rw [hframes]
    exact padTo_take _ _ _

/-- C9 witness: two items with frame lengths 37 and 50 under r = 5: the
50-frame item comes first, item_indices is the swap, max_frames is 50 and
both stop rows sum to exactly 1. -/
theorem c9_desc_order_witness :
    collate 5 1 [itemF 37, itemF 50] =
      Except.ok (collateBatch 5 1 [itemF 37, itemF 50]) ∧
    (collateBatch 5 1 [itemF 37, itemF 50]).frame_lengths = [50, 37] ∧
    (collateBatch 5 1 [itemF 37, itemF 50]).item_indices = [1, 0] ∧
    roundUpTo 5 (maxFrameLen [itemF 37, itemF 50]) = 50 ∧
    (collateBatch 5 1 [itemF 37, itemF 50]).stop_targets =
      [[[0], [0], [0], [0], [0], [0], [0], [0], [0], [(1 : Rat)]],
       [[0], [0], [0], [0], [0], [0], [0], [(1 : Rat)], [0], [0]]] ∧
    ((collateBatch 5 1 [itemF 37, itemF 50]).item_indices.Perm
        (List.range [itemF 37, itemF 50].length) ∧
      (∀ i < [itemF 37, itemF 50].length, ∃ k it,
        (collateBatch 5 1 [itemF 37, itemF 50]).item_indices.getD i 0 = k ∧
        [itemF 37, itemF 50][k]? = some it ∧
        (collateBatch 5 1 [itemF 37, itemF 50]).frame_lengths.getD i 0 =
          frameLen it ∧
        ((collateBatch 5 1 [itemF 37, itemF 50]).frames.getD i []).take
          (frameLen it) = it.frame_matrix) ∧
      (∀ i j, i ≤ j → j < [itemF 37, itemF 50].length →
        (collateBatch 5 1 [itemF 37, itemF 50]).frame_lengths.getD j 0 ≤
          (collateBatch 5 1 [itemF 37, itemF 50]).frame_lengths.getD i 0) ∧
      (∀ i < [itemF 37, itemF 50].length,
        (collateBatch 5 1 [itemF 37, itemF 50]).frame_lengths.getD i 0 ≤
          (collateBatch 5 1 [itemF 37, itemF 50]).frame_lengths.getD 0 0)) :=
  ⟨rfl, by decide, by decide, by decide, by decide,
    c9_desc_order (show collate 5 1 [itemF 37, itemF 50] =
      Except.ok (collateBatch 5 1 [itemF 37, itemF 50]) from rfl)⟩

/-- C10 counterexample: for the single item with the two nonzero frame rows
[1] and [2] and r = 1, collate produces a batch whose stop-marked step covers
the item's real (nonzero) final frame, so the test-suite invariant that
stop-marked positions hold only zero frames is violated. -/
theorem c10_counterexample :
    collate 1 1 [⟨[1], [[1], [2]]⟩] =
      Except.ok (collateBatch 1 1 [⟨[1], [[1], [2]]⟩]) ∧
    ¬ stopMarksZeroFrames 1 (collateBatch 1 1 [⟨[1], [[1], [2]]⟩]) :=
  ⟨rfl, by decide⟩

/-- C10 amended: the stop-marked step is the one covering the item's true
final frame (its r covered time positions reach index frame_lengths[i] - 1),
and every frame row strictly after that step is entirely zero; the stop
marker itself may land on a step containing real nonzero frames. -/
theorem c10_amended {r numMels : Nat} {items : List CorpusItem} {b : Batch}
    (hok : collate r numMels items = Except.ok b) (hr : 1 ≤ r)
    (hL : ∀ it ∈ items, 1 ≤ frameLen it) :
    ∀ i < items.length, ∀ s < (b.stop_targets.getD i []).length,
      (b.stop_targets.getD i []).getD s [] = [(1 : Rat)] →
      (r * s ≤ b.frame_lengths.getD i 0 - 1 ∧
        b.frame_lengths.getD i 0 ≤ r * s + r) ∧
      ∀ t, r * s + r ≤ t →
        ∀ x ∈ (b.frames.getD i []).getD t [], x = (0 : Rat) := by
  obtain ⟨hne, rfl⟩ := collate_ok_iff.mp hok
  intro i hi s hs hcell
  obtain ⟨p, hp, hpmem, _, _, _, hframes, hflen, hstop, _⟩ :=
    collateBatch_row r numMels items hi
  rw [hstop, stopRow_length] at hs
  rw [hstop, stopRow_getD hs] at hcell
  have hL1 : 1 ≤ frameLen p.2 := hL p.2 hpmem
  have hs_eq : s = ceilDiv (frameLen p.2) r - 1 := by
    by_contra hne2
    rw [if_neg hne2] at hcell
    simp at hcell
  subst hs_eq
  have hub : frameLen p.2 ≤ r * (ceilDiv (frameLen p.2) r - 1) + r := by
    have hceil1 := one_le_ceilDiv (show 0 < r from hr)
      (show 0 < frameLen p.2 from hL1)
    have h1 : r * (ceilDiv (frameLen p.2) r - 1) + r =
        r * ceilDiv (frameLen p.2) r := by
      have h2 : ceilDiv (frameLen p.2) r - 1 + 1 =
          ceilDiv (frameLen p.2) r := by omega
      rw [← Nat.mul_succ]
      exact congrArg (fun x => r * x) h2
    rw [h1]
    exact le_roundUpTo hr (frameLen p.2)
  refine ⟨?_, ?_⟩
  · rw [hflen]
    refine ⟨?_, hub⟩
    rw [ceilDiv_sub_one (show 0 < r from hr) (show 0 < frameLen p.2 from hL1)]
    exact Nat.mul_div_le _ _
  · intro t ht x hx
    have hLt : p.2.frame_matrix.length ≤ t := le_trans hub ht
    rw [hframes] at hx
    by_cases htm : t < roundUpTo r (maxFrameLen items)
    · rw [List.getD_eq_getElem?_getD, padTo_getElem?_right hLt htm] at hx
      simp only [Option.getD_some] at hx
      exact (List.mem_replicate.mp hx).2
    · have hnone : (padTo (roundUpTo r (maxFrameLen items))
          (List.replicate numMels (0 : Rat)) p.2.frame_matrix)[t]? = none := by
        apply List.getElem?_eq_none
        rw [padTo_length
          (le_trans (frameLen_le_maxFrameLen hpmem) (le_roundUpTo hr _))]
        omega
      rw [List.getD_eq_getElem?_getD, hnone] at hx
      simp at hx

/-- C10 amended witness: the amended statement instantiated at the very
input of the counterexample (two nonzero frames, r = 1). -/
theorem c10_amended_witness :
    collate 1 1 [⟨[1], [[1], [2]]⟩] =
      Except.ok (collateBatch 1 1 [⟨[1], [[1], [2]]⟩]) ∧
    (1 : Nat) ≤ 1 ∧
    (∀ it ∈ [(⟨[1], [[1], [2]]⟩ : CorpusItem)], 1 ≤ frameLen it) ∧
    (∀ i < [(⟨[1], [[1], [2]]⟩ : CorpusItem)].length,
      ∀ s < ((collateBatch 1 1
          [⟨[1], [[1], [2]]⟩]).stop_targets.getD i []).length,
        ((collateBatch 1 1 [⟨[1], [[1], [2]]⟩]).stop_targets.getD i []).getD
            s [] = [(1 : Rat)] →
        (1 * s ≤ (collateBatch 1 1
            [⟨[1], [[1], [2]]⟩]).frame_lengths.getD i 0 - 1 ∧
          (collateBatch 1 1 [⟨[1], [[1], [2]]⟩]).frame_lengths.getD i 0 ≤
            1 * s + 1) ∧
        ∀ t, 1 * s + 1 ≤ t →
          ∀ x ∈ ((collateBatch 1 1 [⟨[1], [[1], [2]]⟩]).frames.getD i []).getD
            t [], x = (0 : Rat)) :=
  ⟨rfl, by decide, by decide,
    c10_amended (show collate 1 1 [⟨[1], [[1], [2]]⟩] =
        Except.ok (collateBatch 1 1 [⟨[1], [[1], [2]]⟩]) from rfl)
      (by decide) (by decide)⟩

end TTS
